import Mathlib

/-!
Shallow embedding of the finalize pipeline of the buildpack shim
(`src/shims/finalizer.go` plus its entrypoint and supplier files),
with theorems checking the natural-language specification against it.

The filesystem is modelled explicitly: file contents that the code parses
are taken as already-decoded values, directories are finite maps or
association lists, and fallible operations return `Except`.
-/

namespace shims


/-- A buildpack reference as decoded from order/group TOML files
(`buildpack` in the shims package; fields visible from
`finalizer.go`: `ID`, `Name`, `Version`, zero-valued when absent). -/
structure buildpack where
  id : String
  name : String := ""
  version : String := ""
deriving Repr, DecidableEq

/-- A detection group: an ordered list of buildpack references
(`group` in the shims package, field `Buildpacks`). -/
structure group where
  buildpacks : List buildpack
deriving Repr, DecidableEq

/-- An order: an ordered list of groups (`order` in the shims package,
field `Groups`). -/
structure order where
  groups : List group
deriving Repr, DecidableEq

/-- Modelled from the spec: `combineOrders` (shims helper not under `src/`)
combines the discovered order fragments into one order that contains every
fragment's groups, preserving each fragment's internal group ordering, with
fragments in discovery order. -/
def combineOrders (orders : List order) : order :=
  ⟨(orders.map order.groups).flatten⟩

/-- Error outcomes of `MergeOrderTOMLs`. The only error raised by the code
under `src/` after successful fragment discovery is
`errors.New("no order.toml found")` (`finalizer.go:141`). -/
inductive MergeError where
  | noFragmentsFound
deriving Repr, DecidableEq

/-- `Finalizer.MergeOrderTOMLs` (`finalizer.go:133-145`).
`parseOrderTOMLs` (shims helper not under `src/`) is modelled from the
spec as producing one decoded order per discovered fragment, in the legacy
buildpacks' original execution order (lowest index first); its result is
the input list `orders`. The final `encodeTOML` write is modelled as
returning the encoded value. -/
def MergeOrderTOMLs (orders : List order) : Except MergeError order :=
  if orders.length = 0 then
    .error .noFragmentsFound
  else
    .ok (combineOrders orders)

/-! ## Conditional detection (`Finalizer.RunV3Detect`, `finalizer.go:147-156`) -/

/-- Possible error of the external detector collaborator. -/
inductive DetectError where
  | detectorFailed
deriving Repr, DecidableEq

/-- `Finalizer.RunV3Detect` (`finalizer.go:147-156`): stats the group and
plan metadata files; if either is absent it runs the external detector,
otherwise it returns nil without running it. File existence is modelled by
the two booleans; the detector collaborator is modelled by the outcome
`detect` it would produce when invoked. The first component records
whether the detector was invoked. -/
def RunV3Detect (groupExists planExists : Bool)
    (detect : Except DetectError Unit) : Bool × Except DetectError Unit :=
  if groupExists = false ∨ planExists = false then
    (true, detect)
  else
    (false, .ok ())

/-! ## Renaming the legacy env directory
(`Finalizer.RenameEnvDir`, `finalizer.go:266-271`) -/

/-- Outcome classes of `os.Rename` as distinguished by the code: an error
for which `os.IsNotExist` holds, or any other filesystem error. -/
inductive OsError where
  | notExist
  | other
deriving Repr, DecidableEq

/-- The layer directory state that `RenameEnvDir` manipulates: whether an
`env` directory exists and whether an `env.build` directory exists. -/
structure LayerDirState where
  hasEnv : Bool
  hasEnvBuild : Bool
deriving Repr, DecidableEq

/-- `os.Rename(dst/env, dst/env.build)` on the modelled layer directory:
renaming a non-existent source yields an `IsNotExist` error; `osFailure`
injects any other filesystem failure (permission and the like). -/
def osRenameEnv (l : LayerDirState) (osFailure : Bool) :
    Except OsError LayerDirState :=
  if osFailure then .error .other
  else if l.hasEnv then .ok { hasEnv := false, hasEnvBuild := true }
  else .error .notExist

/-- `Finalizer.RenameEnvDir` (`finalizer.go:266-271`): performs the rename
and swallows exactly a not-exist error (`err != nil && !os.IsNotExist(err)`),
leaving the directory unchanged in that case. -/
def RenameEnvDir (l : LayerDirState) (osFailure : Bool) :
    Except OsError LayerDirState :=
  match osRenameEnv l osFailure with
  | .error e => if e = .notExist then .ok l else .error e
  | .ok l' => .ok l'

/-! ## Legacy-buildpack injector
(`Finalizer.IncludePreviousV2Buildpacks`, `finalizer.go:158-195`,
and `Finalizer.UpdateGroupTOML`, `finalizer.go:273-283`) -/

/-- The synthesized buildpack id `fmt.Sprintf("buildpack.%d", idx)`
(`finalizer.go:174`). -/
def buildpackIDFor (idx : Nat) : String :=
  "buildpack." ++ toString idx

/-- `Finalizer.UpdateGroupTOML` (`finalizer.go:273-283`): decode the group
metadata file, prepend a reference `{ID: buildpackID}` to its buildpack
list, and re-encode it. The file round-trip is modelled as a function on
the decoded group. -/
def UpdateGroupTOML (buildpackID : String) (g : group) : group :=
  ⟨{ id := buildpackID } :: g.buildpacks⟩

/-- One injection step performed for a legacy deps index that has on-disk
output, in the order the loop body performs them (`finalizer.go:177-191`). -/
inductive InjectAction where
  | moveV2Layers (idx : Nat)
  | writeLayerMetadata (idx : Nat)
  | renameEnvDir (idx : Nat)
  | updateGroupTOML (idx : Nat)
  | addFakeCNBBuildpack (idx : Nat)
deriving Repr, DecidableEq

/-- The five injection steps performed for a present index, in loop-body
order. -/
def injectActions (idx : Nat) : List InjectAction :=
  [.moveV2Layers idx, .writeLayerMetadata idx, .renameEnvDir idx,
   .updateGroupTOML idx, .addFakeCNBBuildpack idx]

/-- The state `IncludePreviousV2Buildpacks` acts on: which legacy deps
indices have on-disk output under `V2DepsDir`, the decoded group metadata
file, and a trace of the filesystem-effecting steps performed (in order). -/
structure InjectState where
  v2Present : Nat → Bool
  groupMetadata : group
  trace : List InjectAction

/-- Decimal digit run of `strconv.Atoi`: accumulates the value, failing on
the first non-digit character. -/
def parseNatDigits : List Char → Nat → Option Nat
  | [], acc => some acc
  | c :: rest, acc =>
    if c.isDigit then parseNatDigits rest (acc * 10 + (c.toNat - 48)) else none

/-- Go's `strconv.Atoi` on the `DepsIndex` string: an optionally signed,
non-empty decimal integer, or a syntax error. -/
def Atoi (s : String) : Except String Int :=
  match s.data with
  | [] => .error "invalid syntax"
  | '+' :: rest =>
    match rest, parseNatDigits rest 0 with
    | _ :: _, some n => .ok (n : Int)
    | _, _ => .error "invalid syntax"
  | '-' :: rest =>
    match rest, parseNatDigits rest 0 with
    | _ :: _, some n => .ok (-(n : Int))
    | _, _ => .error "invalid syntax"
  | cs =>
    match parseNatDigits cs 0 with
    | some n => .ok (n : Int)
    | none => .error "invalid syntax"

/-- The loop body for one index (`finalizer.go:168-192`): skip the index if
its `V2DepsDir` entry does not exist; otherwise relocate the layer (which
removes the `V2DepsDir` entry), write the sidecar, rename `env`, prepend to
the group, and synthesize the fake buildpack. -/
def injectIndex (st : InjectState) (idx : Nat) : InjectState :=
  if st.v2Present idx then
    { v2Present := fun i => if i = idx then false else st.v2Present i
      groupMetadata := UpdateGroupTOML (buildpackIDFor idx) st.groupMetadata
      trace := st.trace ++ injectActions idx }
  else
    st

/-- The indices visited by `for i := myIDx - 1; i >= 0; i--`:
`[n-1, n-2, …, 0]`. -/
def descRange : Nat → List Nat
  | 0 => []
  | n + 1 => n :: descRange n

/-- `Finalizer.IncludePreviousV2Buildpacks` (`finalizer.go:158-195`): parse
`DepsIndex` with `strconv.Atoi`, remove the finalizer's own deps-index
directory, then walk the indices below it in descending order, injecting
every present one. -/
def IncludePreviousV2Buildpacks (depsIndex : String) (st : InjectState) :
    Except String InjectState :=
  match Atoi depsIndex with
  | .error e => .error e
  | .ok myIDx =>
    .ok ((descRange myIDx.toNat).foldl injectIndex
      { st with v2Present := fun i => if i = myIDx.toNat then false else st.v2Present i })

/-! ## Override engine
(`Finalizer.ApplyOverrideYMLs`, `finalizer.go:332-356`,
`Finalizer.updateBuildpackTOML`, `finalizer.go:420-462`, and
`v2ToV3Dep`, `finalizer.go:464-480`) -/

/-- A dependency record of a buildpack descriptor
(`V3Dependency`, `finalizer.go:70-79`). -/
structure V3Dependency where
  id : String
  name : String
  sha256 : String
  Stacks : List String
  uri : String
  version : String
  source : String := ""
  sourceSha256 : String := ""
deriving Repr, DecidableEq

/-- The `Dependency` sub-record of a legacy manifest entry (fields of
`libbuildpack.ManifestEntry` read by `v2ToV3Dep`). -/
structure DependencyRef where
  name : String
  version : String
deriving Repr, DecidableEq

/-- A legacy manifest dependency entry (`libbuildpack.ManifestEntry`
fields read in `finalizer.go:464-480`). -/
structure ManifestEntry where
  dependency : DependencyRef
  uri : String
  sha256 : String
  cfStacks : List String
deriving Repr, DecidableEq

/-- A default-version pin of a legacy manifest
(`manifest.DefaultVersions` entries, `finalizer.go:433-438`). -/
structure DefaultVersionPin where
  name : String
  version : String
deriving Repr, DecidableEq

/-- The subset of `libbuildpack.Manifest` consumed by
`updateBuildpackTOML`: default-version pins and dependency entries. -/
structure OverrideManifest where
  defaultVersions : List DefaultVersionPin
  manifestEntries : List ManifestEntry
deriving Repr, DecidableEq

/-- The parts of `BuildpackTOML` (`finalizer.go:60-69`) that the override
engine reads or writes: the default-version mapping and the dependency
list. The untouched pass-through fields (`Buildpack`, `IncludeFiles`,
`PrePackage`, `Stacks`) are collapsed into `rest`. -/
structure BuildpackTOML where
  defaultVersions : List (String × String)
  dependencies : List V3Dependency
  rest : String := ""
deriving Repr, DecidableEq

/-- `v2ToV3Dep` (`finalizer.go:464-480`): translate a legacy manifest entry
into a descriptor dependency, namespacing each legacy stack string. -/
def v2ToV3Dep (entry : ManifestEntry) : V3Dependency :=
  { id := entry.dependency.name
    name := entry.dependency.name
    sha256 := entry.sha256
    Stacks := entry.cfStacks.map (fun s => "org.cloudfoundry.stacks." ++ s)
    uri := entry.uri
    version := entry.dependency.version
    source := ""
    sourceSha256 := "" }

/-- The dependency upsert loop of `updateBuildpackTOML`
(`finalizer.go:440-452`): every existing record with the same `(id,
version)` is overwritten in place; if none was, the override record is
appended to the (unchanged) list. -/
def upsertDependency (deps : List V3Dependency) (od : V3Dependency) :
    List V3Dependency :=
  if deps.any (fun d => d.id == od.id && d.version == od.version) then
    deps.map (fun d => if d.id == od.id && d.version == od.version then od else d)
  else
    deps.map (fun d => if d.id == od.id && d.version == od.version then od else d)
      ++ [od]

/-- The Go map assignment
`bpTOML.Metadata.DefaultVersions[defaultVer.Name] = defaultVer.Version`
(`finalizer.go:437`), on the association-list representation of the map:
replace the entry for the name in place, or add one. -/
def setDefaultVersion (dv : List (String × String)) (name ver : String) :
    List (String × String) :=
  if dv.any (fun p => p.1 == name) then
    dv.map (fun p => if p.1 == name then (name, ver) else p)
  else
    dv ++ [(name, ver)]

/-- The per-manifest body of `updateBuildpackTOML`'s `overrideMap` loop
(`finalizer.go:432-453`): apply every default-version pin, then upsert
every translated dependency. -/
def applyManifest (bp : BuildpackTOML) (m : OverrideManifest) : BuildpackTOML :=
  { bp with
    defaultVersions :=
      m.defaultVersions.foldl (fun dv p => setDefaultVersion dv p.name p.version)
        bp.defaultVersions
    dependencies :=
      m.manifestEntries.foldl (fun ds e => upsertDependency ds (v2ToV3Dep e))
        bp.dependencies }

/-- `Finalizer.updateBuildpackTOML` (`finalizer.go:420-462`): apply one
override file's manifest map to every discovered buildpack descriptor.
The Go `for _, manifest := range overrideMap` iterates the map in an
unspecified order; the association list `overrideMap` carries the
iteration order actually used. -/
def updateBuildpackTOML (bps : List BuildpackTOML)
    (overrideMap : List (String × OverrideManifest)) : List BuildpackTOML :=
  bps.map (fun bp => overrideMap.foldl (fun b km => applyManifest b km.2) bp)

/-- `Finalizer.ApplyOverrideYMLs` (`finalizer.go:332-356`): apply every
discovered override file, in discovery order, to the discovered
descriptors. Each file is its decoded manifest map together with the
iteration order used for it. -/
def ApplyOverrideYMLs (files : List (List (String × OverrideManifest)))
    (bps : List BuildpackTOML) : List BuildpackTOML :=
  files.foldl updateBuildpackTOML bps

/-! ## Layer migrator and cache manager
(`Finalizer.moveV3Layer`, `finalizer.go:373-406`, `Finalizer.cacheLayer`,
`finalizer.go:408-418`, `Finalizer.RestoreV3Cache`,
`finalizer.go:218-227`) -/

/-- A layer metadata sidecar (`LayerMetadata`, `finalizer.go:33-37`). -/
structure LayerMetadata where
  build : Bool
  launch : Bool
  cache : Bool
deriving Repr, DecidableEq

/-- One layer inside a buildpack's layers directory: its name, its decoded
`<name>.toml` sidecar when one exists, and its directory tree (opaque). -/
structure V3Layer where
  name : String
  sidecar : Option LayerMetadata
  contents : String
deriving Repr, DecidableEq

/-- One non-config top-level directory of `V3LayersDir`: the originating
buildpack's name and the layers (with sidecars) it contains. -/
structure BpLayersDir where
  name : String
  layers : List V3Layer
deriving Repr, DecidableEq

/-- The filesystem state that layer migration writes to: the durable cache
under `V2CacheDir/cnb` keyed by `(buildpack name, layer name)`, and the
legacy deps layout `V2DepsDir` keyed by buildpack name. -/
structure MigrateState where
  cacheCnb : String → String → Option (LayerMetadata × String)
  depsDir : String → Option (List V3Layer)

/-- `Finalizer.cacheLayer` (`finalizer.go:408-418`): make the cache entry
directory, copy the layer's sidecar to `<entry>.toml` and its directory
tree into the entry. `libbuildpack.CopyFile`/`CopyDirectory` are not under
`src/` and are modelled from the spec as overwriting copies, so the entry
for `(layersName, layer name)` is overwritten wholesale. -/
def cacheLayer (st : MigrateState) (layersName : String) (l : V3Layer)
    (m : LayerMetadata) : MigrateState :=
  { st with cacheCnb := fun b n =>
      if b = layersName ∧ n = l.name then some (m, l.contents)
      else st.cacheCnb b n }

/-- One iteration of `moveV3Layer`'s sidecar loop (`finalizer.go:380-395`):
a layer without a sidecar is not examined (the glob only finds `*.toml`
files); a layer whose sidecar decodes with `cache=true` is passed to
`cacheLayer`; any other layer is left alone. -/
def cacheStep (layersName : String) (s : MigrateState) (l : V3Layer) :
    MigrateState :=
  match l.sidecar with
  | some m => if m.cache then cacheLayer s layersName l m else s
  | none => s

/-- `Finalizer.moveV3Layer` (`finalizer.go:373-406`): run the sidecar loop
over the buildpack directory's layers, then copy the full buildpack layer
directory into the legacy deps layout under the buildpack's name
(`libbuildpack.CopyDirectory`, modelled from the spec as an overwriting
copy). -/
def moveV3Layer (st : MigrateState) (bp : BpLayersDir) : MigrateState :=
  { bp.layers.foldl (cacheStep bp.name) st with
    depsDir := fun b =>
      if b = bp.name then some bp.layers
      else (bp.layers.foldl (cacheStep bp.name) st).depsDir b }

/-- The state `RestoreV3Cache` acts on: the contents of the durable cache
root `V2CacheDir/cnb` (`none` when the root does not exist), and the
contents of the working layers directory, as named entries. -/
structure CacheDirState where
  cnbCache : Option (List (String × String))
  layersDir : List (String × String)
deriving Repr, DecidableEq

/-- Modelled from the spec: `libbuildpack.MoveDirectory` (not under `src/`)
moves a directory's contents wholesale into the destination — the entries
end up in the destination and none remain at the source. Returns the new
(source contents, destination contents) pair. -/
def MoveDirectory (src dst : List (String × String)) :
    List (String × String) × List (String × String) :=
  ([], dst ++ src)

/-- `Finalizer.RestoreV3Cache` (`finalizer.go:218-227`): if
`V2CacheDir/cnb` exists (`libbuildpack.FileExists`, modelled as presence of
`cnbCache`), move it wholesale into `V3LayersDir`; otherwise do nothing.
Neither branch produces an error. -/
def RestoreV3Cache (st : CacheDirState) : Except OsError CacheDirState :=
  match st.cnbCache with
  | none => .ok st
  | some entries =>
    .ok { cnbCache := some (MoveDirectory entries st.layersDir).1
          layersDir := (MoveDirectory entries st.layersDir).2 }

/-! ## Theorems -/

/-- C1: for every non-empty list of discovered order fragments,
`MergeOrderTOMLs` succeeds with a combined order whose group list is the
concatenation of the fragments' group lists in fragment-discovery order
(so every fragment's groups are kept, each fragment's internal ordering is
preserved, and no fragment is dropped); in particular every fragment's
group list embeds in order into the merged one. -/
theorem mergeOrderTOMLs_combines_all_fragments
    (orders : List order) (h : orders ≠ []) :
    MergeOrderTOMLs orders = .ok ⟨(orders.map order.groups).flatten⟩ ∧
      ∀ o ∈ orders, o.groups.Sublist (combineOrders orders).groups := by
  constructor
  · unfold MergeOrderTOMLs
    rw [if_neg (by simpa [List.length_eq_zero] using h)]
    rfl
  · intro o ho
    exact List.sublist_flatten_of_mem (List.mem_map_of_mem order.groups ho)

/-- Witness for C1 at a concrete two-fragment input. -/
theorem mergeOrderTOMLs_combines_all_fragments_witness :
    MergeOrderTOMLs [⟨[⟨[{id := "lang-a"}]⟩]⟩, ⟨[⟨[{id := "lang-b"}]⟩]⟩] =
        .ok ⟨[⟨[{id := "lang-a"}]⟩, ⟨[{id := "lang-b"}]⟩]⟩ ∧
      ∀ o ∈ [(⟨[⟨[{id := "lang-a"}]⟩]⟩ : order), ⟨[⟨[{id := "lang-b"}]⟩]⟩],
        o.groups.Sublist
          (combineOrders [⟨[⟨[{id := "lang-a"}]⟩]⟩, ⟨[⟨[{id := "lang-b"}]⟩]⟩]).groups := by
  have h := mergeOrderTOMLs_combines_all_fragments
    [⟨[⟨[{id := "lang-a"}]⟩]⟩, ⟨[⟨[{id := "lang-b"}]⟩]⟩] (by decide)
  exact h

/-- C2: `MergeOrderTOMLs` fails with `NoFragmentsFound` if and only if zero
fragments were discovered; with at least one fragment it never returns that
error. -/
theorem mergeOrderTOMLs_noFragmentsFound_iff (orders : List order) :
    MergeOrderTOMLs orders = .error .noFragmentsFound ↔ orders = [] := by
  unfold MergeOrderTOMLs
  rcases orders with _ | ⟨o, os⟩ <;> simp

/-- C8: `RunV3Detect` invokes the external detector if and only if the
group metadata file or the plan metadata file is absent; when both files
exist it returns success without invoking the detector (its result is
`ok` no matter what the detector would have produced). -/
theorem runV3Detect_invokes_iff_metadata_absent
    (groupExists planExists : Bool) (detect : Except DetectError Unit) :
    ((RunV3Detect groupExists planExists detect).1 = true ↔
        groupExists = false ∨ planExists = false) ∧
      ((RunV3Detect groupExists planExists detect).1 = true →
        (RunV3Detect groupExists planExists detect).2 = detect) ∧
      (groupExists = true → planExists = true →
        RunV3Detect groupExists planExists detect = (false, .ok ())) := by
  unfold RunV3Detect
  rcases groupExists <;> rcases planExists <;> simp

/-- Witness for C8: with both metadata files present, a failing detector is
not invoked and the phase succeeds; with the plan file absent, the detector
is invoked. -/
theorem runV3Detect_invokes_iff_metadata_absent_witness :
    RunV3Detect true true (.error .detectorFailed) = (false, .ok ()) ∧
      (RunV3Detect true false (.error .detectorFailed)).1 = true := by
  refine ⟨(runV3Detect_invokes_iff_metadata_absent true true
      (.error .detectorFailed)).2.2 rfl rfl, ?_⟩
  exact ((runV3Detect_invokes_iff_metadata_absent true false
      (.error .detectorFailed)).1).mpr (Or.inr rfl)

/-- C10: `RenameEnvDir` returns no error when the layer has no `env`
directory (the rename is silently skipped and the directory is unchanged);
it returns an error exactly when a filesystem failure other than
non-existence occurs; and when `env` exists (and no such failure occurs)
it is renamed to `env.build`. -/
theorem renameEnvDir_skips_missing_env (l : LayerDirState) (osFailure : Bool) :
    (l.hasEnv = false → osFailure = false → RenameEnvDir l osFailure = .ok l) ∧
      ((RenameEnvDir l osFailure).isOk = false ↔ osFailure = true) ∧
      (l.hasEnv = true → osFailure = false →
        RenameEnvDir l osFailure = .ok { hasEnv := false, hasEnvBuild := true }) := by
  unfold RenameEnvDir osRenameEnv
  rcases osFailure
  · rcases hl : l.hasEnv <;> simp [hl, Except.isOk, Except.toBool]
  · simp [Except.isOk, Except.toBool]

/-- Witness for C10: a layer without `env` passes through unchanged, a
genuine filesystem failure is propagated, and a layer with `env` gets it
renamed. -/
theorem renameEnvDir_skips_missing_env_witness :
    RenameEnvDir ⟨false, false⟩ false = .ok ⟨false, false⟩ ∧
      (RenameEnvDir ⟨true, false⟩ true).isOk = false ∧
      RenameEnvDir ⟨true, false⟩ false = .ok ⟨false, true⟩ := by
  refine ⟨(renameEnvDir_skips_missing_env ⟨false, false⟩ false).1 rfl rfl, ?_, ?_⟩
  · exact ((renameEnvDir_skips_missing_env ⟨true, false⟩ true).2.1).mpr rfl
  · exact (renameEnvDir_skips_missing_env ⟨true, false⟩ false).2.2 rfl rfl

theorem mem_descRange {n i : Nat} : i ∈ descRange n ↔ i < n := by
  induction n with
  | zero => simp [descRange]
  | succ m ih =>
    simp only [descRange, List.mem_cons, ih]
    omega

theorem descRange_eq_reverse_range (n : Nat) :
    descRange n = (List.range n).reverse := by
  induction n with
  | zero => rfl
  | succ m ih => simp [descRange, List.range_succ, ih]

/-- The fold does not touch `v2Present` at indices it does not visit, and
a visited index ends up (or stays) absent. -/
theorem foldl_injectIndex_v2Present (n : Nat) (st : InjectState) (j : Nat)
    (hj : n ≤ j) :
    ((descRange n).foldl injectIndex st).v2Present j = st.v2Present j := by
  induction n generalizing st with
  | zero => rfl
  | succ m ih =>
    simp only [descRange, List.foldl_cons]
    rw [ih _ (by omega)]
    unfold injectIndex
    rcases h : st.v2Present m
    · simp
    · simp only [if_pos rfl]
      have : j ≠ m := by omega
      simp [this]

/-- Group evolution of the injector fold: when every index below `n` is
present, the fold prepends the references for indices `0, …, n-1` so that
the final list is ascending, followed by the original buildpacks. -/
theorem foldl_injectIndex_group (n : Nat) (st : InjectState)
    (hpres : ∀ i, i < n → st.v2Present i = true) :
    ((descRange n).foldl injectIndex st).groupMetadata.buildpacks =
      (List.range n).map (fun i => { id := buildpackIDFor i }) ++
        st.groupMetadata.buildpacks := by
  induction n generalizing st with
  | zero => simp [descRange]
  | succ m ih =>
    simp only [descRange, List.foldl_cons]
    have hm : st.v2Present m = true := hpres m (by omega)
    have hstep : injectIndex st m =
        { v2Present := fun i => if i = m then false else st.v2Present i
          groupMetadata := UpdateGroupTOML (buildpackIDFor m) st.groupMetadata
          trace := st.trace ++ injectActions m } := by
      unfold injectIndex
      rw [hm]
      rfl
    rw [hstep, ih]
    · simp [UpdateGroupTOML, List.range_succ]
    · intro i hi
      have : i ≠ m := by omega
      simp only [if_neg this]
      exact hpres i (by omega)

/-- Trace of the injector fold: one block of the five injection actions per
visited index that is present, nothing for absent indices, blocks in
descending index order. -/
theorem foldl_injectIndex_trace (n : Nat) (st : InjectState) :
    ((descRange n).foldl injectIndex st).trace =
      st.trace ++
        ((descRange n).map (fun i =>
          if st.v2Present i = true then injectActions i else [])).flatten := by
  induction n generalizing st with
  | zero => simp [descRange]
  | succ m ih =>
    simp only [descRange, List.foldl_cons, List.map_cons, List.flatten_cons]
    rcases hm : st.v2Present m with _ | _
    · have hstep : injectIndex st m = st := by
        unfold injectIndex
        rw [hm]
        rfl
      rw [hstep, ih]
      simp
    · have hstep : injectIndex st m =
          { v2Present := fun i => if i = m then false else st.v2Present i
            groupMetadata := UpdateGroupTOML (buildpackIDFor m) st.groupMetadata
            trace := st.trace ++ injectActions m } := by
        unfold injectIndex
        rw [hm]
        rfl
      rw [hstep, ih]
      dsimp only
      have hmap : (descRange m).map (fun i =>
            if (if i = m then false else st.v2Present i) = true
            then injectActions i else []) =
          (descRange m).map (fun i =>
            if st.v2Present i = true then injectActions i else []) := by
        apply List.map_congr_left
        intro i hi
        have hne : i ≠ m := by
          have := mem_descRange.mp hi
          omega
        simp [hne]
      rw [hmap]
      simp

/-- C3: for every `N ≥ 1`, with legacy buildpack output present on disk at
all deps indices `0 … N-1` and the current deps index parsing to `N`, after
`IncludePreviousV2Buildpacks` completes, the group metadata's buildpack list
begins with `buildpack.0, buildpack.1, …, buildpack.(N-1)` in ascending
index order, followed by exactly the references that were in the detected
group before injection. -/
theorem includePreviousV2Buildpacks_group_ordering
    (depsIndex : String) (N : Nat) (_hN : 1 ≤ N)
    (hparse : Atoi depsIndex = .ok (N : Int))
    (st : InjectState) (hpres : ∀ i, i < N → st.v2Present i = true) :
    ∃ st', IncludePreviousV2Buildpacks depsIndex st = .ok st' ∧
      st'.groupMetadata.buildpacks =
        (List.range N).map (fun i => { id := buildpackIDFor i }) ++
          st.groupMetadata.buildpacks := by
  unfold IncludePreviousV2Buildpacks
  rw [hparse]
  refine ⟨_, rfl, ?_⟩
  rw [Int.toNat_natCast, foldl_injectIndex_group]
  intro i hi
  have hne : i ≠ N := by omega
  simp only [if_neg hne]
  exact hpres i hi

/-- Witness for C3 at `N = 2`, deps index string `"2"`, all lower indices
present, detected group `[lang-b]`. -/
theorem includePreviousV2Buildpacks_group_ordering_witness :
    ∃ st', IncludePreviousV2Buildpacks "2"
        ⟨fun _ => true, ⟨[{id := "lang-b"}]⟩, []⟩ = .ok st' ∧
      st'.groupMetadata.buildpacks =
        [{id := "buildpack.0"}, {id := "buildpack.1"}, {id := "lang-b"}] := by
  obtain ⟨st', h1, h2⟩ := includePreviousV2Buildpacks_group_ordering
    "2" 2 (by omega) (by rfl)
    ⟨fun _ => true, ⟨[{id := "lang-b"}]⟩, []⟩ (fun i _ => rfl)
  refine ⟨st', h1, ?_⟩
  rw [h2]
  rfl

/-- C4: for every current deps index string that parses to `k`,
`IncludePreviousV2Buildpacks` succeeds and its step trace consists of
exactly one block of the five injection steps (relocate layer, write
sidecar, rename env, update group, synthesize descriptor) per index with
on-disk output, nothing for indices without output, with the indices below
`k` visited in descending order (`(List.range k).reverse`). -/
theorem includePreviousV2Buildpacks_iterates_descending
    (depsIndex : String) (k : Nat) (hparse : Atoi depsIndex = .ok (k : Int))
    (st : InjectState) :
    ∃ st', IncludePreviousV2Buildpacks depsIndex st = .ok st' ∧
      st'.trace = st.trace ++
        (((List.range k).reverse).map (fun i =>
          if st.v2Present i = true then injectActions i else [])).flatten := by
  unfold IncludePreviousV2Buildpacks
  rw [hparse]
  refine ⟨_, rfl, ?_⟩
  rw [Int.toNat_natCast, foldl_injectIndex_trace]
  dsimp only
  rw [← descRange_eq_reverse_range]
  congr 1
  congr 1
  apply List.map_congr_left
  intro i hi
  have hne : i ≠ k := by
    have := mem_descRange.mp hi
    omega
  simp [hne]

/-- Witness for C4 at deps index `"3"` with index 1 missing on disk: the
trace is the block for index 2 followed by the block for index 0. -/
theorem includePreviousV2Buildpacks_iterates_descending_witness :
    ∃ st', IncludePreviousV2Buildpacks "3"
        ⟨fun i => !(i == 1), ⟨[]⟩, []⟩ = .ok st' ∧
      st'.trace = injectActions 2 ++ injectActions 0 := by
  obtain ⟨st', h1, h2⟩ := includePreviousV2Buildpacks_iterates_descending
    "3" 3 (by rfl) ⟨fun i => !(i == 1), ⟨[]⟩, []⟩
  refine ⟨st', h1, ?_⟩
  rw [h2]
  rfl

theorem upsertDependency_no_match (deps : List V3Dependency) (od : V3Dependency)
    (h : ∀ d ∈ deps, ¬(d.id = od.id ∧ d.version = od.version)) :
    upsertDependency deps od = deps ++ [od] := by
  unfold upsertDependency
  have hmap : deps.map
      (fun d => if d.id == od.id && d.version == od.version then od else d) = deps := by
    conv_rhs => rw [← List.map_id deps]
    apply List.map_congr_left
    intro d hd
    have : (d.id == od.id && d.version == od.version) = false := by
      have := h d hd
      simp only [Bool.and_eq_false_iff, beq_eq_false_iff_ne]
      tauto
    simp [this]
  have hany : deps.any (fun d => d.id == od.id && d.version == od.version) = false := by
    simp only [List.any_eq_false, Bool.and_eq_true, beq_iff_eq]
    intro d hd
    exact fun hc => h d hd hc
  rw [hany, hmap]
  simp

theorem upsertDependency_unique_match (deps : List V3Dependency)
    (od : V3Dependency) (i : Nat) (hi : i < deps.length)
    (hmatch : (deps.get ⟨i, hi⟩).id = od.id ∧ (deps.get ⟨i, hi⟩).version = od.version)
    (huniq : ∀ j, (hj : j < deps.length) → j ≠ i →
      ¬((deps.get ⟨j, hj⟩).id = od.id ∧ (deps.get ⟨j, hj⟩).version = od.version)) :
    upsertDependency deps od = deps.set i od := by
  unfold upsertDependency
  have hany : deps.any (fun d => d.id == od.id && d.version == od.version) = true := by
    rw [List.any_eq_true]
    exact ⟨deps.get ⟨i, hi⟩, List.get_mem deps i hi,
      by simp only [Bool.and_eq_true, beq_iff_eq]; exact hmatch⟩
  rw [hany]
  simp only [if_true]
  apply List.ext_getElem
  · simp
  · intro n h1 h2
    have h1' : n < deps.length := by simpa using h1
    rw [List.getElem_map, List.getElem_set]
    by_cases hn : i = n
    · subst hn
      have hc : (deps[i].id == od.id && deps[i].version == od.version) = true := by
        simp only [Bool.and_eq_true, beq_iff_eq]
        simpa [List.get_eq_getElem] using hmatch
      simp [hc]
    · have hc := huniq n h1' (fun hh => hn hh.symm)
      simp only [List.get_eq_getElem] at hc
      have hc' : (deps[n].id == od.id && deps[n].version == od.version) = false := by
        simp only [Bool.and_eq_false_iff, beq_eq_false_iff_ne]
        tauto
      simp [hc', hn]

theorem upsertDependency_last_wins (deps : List V3Dependency)
    (od od2 : V3Dependency) (hid : od2.id = od.id) (hver : od2.version = od.version)
    (h : ∀ d ∈ deps, ¬(d.id = od.id ∧ d.version = od.version)) :
    upsertDependency (upsertDependency deps od) od2 = deps ++ [od2] := by
  rw [upsertDependency_no_match deps od h]
  unfold upsertDependency
  have hany : (deps ++ [od]).any
      (fun d => d.id == od2.id && d.version == od2.version) = true := by
    rw [List.any_eq_true]
    exact ⟨od, by simp, by simp [hid, hver]⟩
  rw [hany]
  simp only [if_true, List.map_append]
  congr 1
  · conv_rhs => rw [← List.map_id deps]
    apply List.map_congr_left
    intro d hd
    have hc : (d.id == od2.id && d.version == od2.version) = false := by
      have := h d hd
      rw [hid, hver]
      simp only [Bool.and_eq_false_iff, beq_eq_false_iff_ne]
      tauto
    simp [hc]
  · simp [hid, hver]

/-- C5: the override dependency upsert law. Applying a translated override
dependency whose `(id, version)` pair matches an existing record replaces
that record in place (preserving its position); with no matching record the
translated record is appended at the end; and applying two overrides with
the same `(id, version)` but different contents leaves exactly one record
for that key, holding the last-applied value. -/
theorem override_dependency_upsert_law
    (deps : List V3Dependency) (e e2 : ManifestEntry)
    (hname : e2.dependency.name = e.dependency.name)
    (hver : e2.dependency.version = e.dependency.version) :
    ((∀ d ∈ deps, ¬(d.id = (v2ToV3Dep e).id ∧ d.version = (v2ToV3Dep e).version)) →
        upsertDependency deps (v2ToV3Dep e) = deps ++ [v2ToV3Dep e]) ∧
      (∀ i, (hi : i < deps.length) →
        ((deps.get ⟨i, hi⟩).id = (v2ToV3Dep e).id ∧
            (deps.get ⟨i, hi⟩).version = (v2ToV3Dep e).version) →
        (∀ j, (hj : j < deps.length) → j ≠ i →
          ¬((deps.get ⟨j, hj⟩).id = (v2ToV3Dep e).id ∧
              (deps.get ⟨j, hj⟩).version = (v2ToV3Dep e).version)) →
        upsertDependency deps (v2ToV3Dep e) = deps.set i (v2ToV3Dep e)) ∧
      ((∀ d ∈ deps, ¬(d.id = (v2ToV3Dep e).id ∧ d.version = (v2ToV3Dep e).version)) →
        (upsertDependency (upsertDependency deps (v2ToV3Dep e))
            (v2ToV3Dep e2)).filter
            (fun d => d.id == (v2ToV3Dep e).id && d.version == (v2ToV3Dep e).version) =
          [v2ToV3Dep e2]) := by
  have hid2 : (v2ToV3Dep e2).id = (v2ToV3Dep e).id := by
    simp [v2ToV3Dep, hname]
  have hver2 : (v2ToV3Dep e2).version = (v2ToV3Dep e).version := by
    simp [v2ToV3Dep, hver]
  refine ⟨fun h => upsertDependency_no_match _ _ h,
    fun i hi hm hu => upsertDependency_unique_match _ _ i hi hm hu,
    fun h => ?_⟩
  rw [upsertDependency_last_wins _ _ _ hid2 hver2 h, List.filter_append]
  have h1 : deps.filter
      (fun d => d.id == (v2ToV3Dep e).id && d.version == (v2ToV3Dep e).version) = [] := by
    rw [List.filter_eq_nil_iff]
    intro d hd
    have := h d hd
    simp only [Bool.and_eq_true, beq_iff_eq]
    tauto
  rw [h1]
  simp [hid2, hver2]

/-- Witness for C5 at concrete entries: an override for `(A,1)` against a
list holding only `(A,2)` is appended leaving `(A,2)` unchanged; an
override for `(A,1)` against a list holding `(A,1)` replaces it in place;
two successive overrides for `(A,1)` with sha `x` then `y` leave exactly
one `(A,1)` record holding `y`. -/
theorem override_dependency_upsert_law_witness :
    upsertDependency [v2ToV3Dep ⟨⟨"A", "2"⟩, "u2", "z", ["cf"]⟩]
        (v2ToV3Dep ⟨⟨"A", "1"⟩, "u", "x", ["cf"]⟩) =
      [v2ToV3Dep ⟨⟨"A", "2"⟩, "u2", "z", ["cf"]⟩,
        v2ToV3Dep ⟨⟨"A", "1"⟩, "u", "x", ["cf"]⟩] ∧
      upsertDependency [v2ToV3Dep ⟨⟨"A", "1"⟩, "u", "x", ["cf"]⟩]
          (v2ToV3Dep ⟨⟨"A", "1"⟩, "u", "y", ["cf"]⟩) =
        [v2ToV3Dep ⟨⟨"A", "1"⟩, "u", "y", ["cf"]⟩] ∧
      (upsertDependency (upsertDependency [] (v2ToV3Dep ⟨⟨"A", "1"⟩, "u", "x", ["cf"]⟩))
          (v2ToV3Dep ⟨⟨"A", "1"⟩, "u", "y", ["cf"]⟩)).filter
          (fun d => d.id == (v2ToV3Dep (⟨⟨"A", "1"⟩, "u", "x", ["cf"]⟩ : ManifestEntry)).id &&
            d.version == (v2ToV3Dep (⟨⟨"A", "1"⟩, "u", "x", ["cf"]⟩ : ManifestEntry)).version) =
        [v2ToV3Dep ⟨⟨"A", "1"⟩, "u", "y", ["cf"]⟩] := by
  refine ⟨?_, ?_, ?_⟩
  · exact (override_dependency_upsert_law
      [v2ToV3Dep ⟨⟨"A", "2"⟩, "u2", "z", ["cf"]⟩]
      ⟨⟨"A", "1"⟩, "u", "x", ["cf"]⟩ ⟨⟨"A", "1"⟩, "u", "y", ["cf"]⟩ rfl rfl).1
      (by decide)
  · have h := (override_dependency_upsert_law
      [v2ToV3Dep ⟨⟨"A", "1"⟩, "u", "x", ["cf"]⟩]
      ⟨⟨"A", "1"⟩, "u", "y", ["cf"]⟩ ⟨⟨"A", "1"⟩, "u", "y", ["cf"]⟩ rfl rfl).2.1
      0 (by decide) (by exact ⟨rfl, rfl⟩)
      (fun j hj hne => absurd (by
        simp only [List.length_singleton] at hj
        omega : j = 0) hne)
    rw [h]
    rfl
  · exact (override_dependency_upsert_law []
      ⟨⟨"A", "1"⟩, "u", "x", ["cf"]⟩ ⟨⟨"A", "1"⟩, "u", "y", ["cf"]⟩ rfl rfl).2.2
      (by simp)

/-- C9 counterexample: a single override file whose manifest map holds two
manifests both overriding `(A,1)` yields different final descriptors under
the two iteration orders of that map (Go's `range` over a map fixes no
order), even though the map contents — and the file discovery order — are
identical. -/
theorem applyOverrideYMLs_map_iteration_order_matters :
    ([("k1", (⟨[], [⟨⟨"A", "1"⟩, "u", "x", ["cf"]⟩]⟩ : OverrideManifest)),
      ("k2", ⟨[], [⟨⟨"A", "1"⟩, "u", "y", ["cf"]⟩]⟩)]).Perm
        [("k2", ⟨[], [⟨⟨"A", "1"⟩, "u", "y", ["cf"]⟩]⟩),
         ("k1", ⟨[], [⟨⟨"A", "1"⟩, "u", "x", ["cf"]⟩]⟩)] ∧
      ApplyOverrideYMLs
          [[("k1", ⟨[], [⟨⟨"A", "1"⟩, "u", "x", ["cf"]⟩]⟩),
            ("k2", ⟨[], [⟨⟨"A", "1"⟩, "u", "y", ["cf"]⟩]⟩)]]
          [⟨[], [], ""⟩] ≠
        ApplyOverrideYMLs
          [[("k2", ⟨[], [⟨⟨"A", "1"⟩, "u", "y", ["cf"]⟩]⟩),
            ("k1", ⟨[], [⟨⟨"A", "1"⟩, "u", "x", ["cf"]⟩]⟩)]]
          [⟨[], [], ""⟩] := by
  exact ⟨List.Perm.swap _ _ _, by decide⟩

/-- C9 (amended): `ApplyOverrideYMLs` is a deterministic function of the
override-file contents, descriptor contents and the discovery order of
both, *together with* the iteration order of each file's manifest map; in
particular, when every override file's manifest map holds at most one
manifest, any two runs (any two per-file iteration orders) produce
identical resulting descriptors. -/
theorem applyOverrideYMLs_deterministic_of_singleton_maps
    (files1 files2 : List (List (String × OverrideManifest)))
    (bps : List BuildpackTOML)
    (h : List.Forall₂ (fun f1 f2 => f1.Perm f2 ∧ f1.length ≤ 1) files1 files2) :
    ApplyOverrideYMLs files1 bps = ApplyOverrideYMLs files2 bps := by
  have heq : files1 = files2 := by
    induction h with
    | nil => rfl
    | cons hab _ ih =>
      obtain ⟨hperm, hlen⟩ := hab
      rename_i a b l1 l2 _
      have hone : a = b := by
        rcases a with _ | ⟨x, t⟩
        · exact hperm.nil_eq
        · rcases t with _ | ⟨y, t2⟩
          · exact (List.perm_singleton.mp hperm.symm).symm
          · simp at hlen
      rw [hone, ih]
  rw [heq]

/-- Witness for C9's amended theorem at a concrete singleton-map input. -/
theorem applyOverrideYMLs_deterministic_of_singleton_maps_witness :
    ApplyOverrideYMLs [[("k1", ⟨[], [⟨⟨"A", "1"⟩, "u", "x", ["cf"]⟩]⟩)]]
        [⟨[], [], ""⟩] =
      ApplyOverrideYMLs [[("k1", ⟨[], [⟨⟨"A", "1"⟩, "u", "x", ["cf"]⟩]⟩)]]
        [⟨[], [], ""⟩] :=
  applyOverrideYMLs_deterministic_of_singleton_maps _ _ _
    (List.Forall₂.cons ⟨List.Perm.refl _, by decide⟩ List.Forall₂.nil)

theorem foldl_cacheStep_not_mem (layers : List V3Layer) (st : MigrateState)
    (bpName n : String) (h : n ∉ layers.map V3Layer.name) :
    (layers.foldl (cacheStep bpName) st).cacheCnb bpName n =
      st.cacheCnb bpName n := by
  induction layers generalizing st with
  | nil => rfl
  | cons l t ih =>
    simp only [List.map_cons, List.mem_cons, not_or] at h
    obtain ⟨hne, ht⟩ := h
    rw [List.foldl_cons, ih _ ht]
    unfold cacheStep cacheLayer
    rcases l.sidecar with _ | m
    · rfl
    · rcases hc : m.cache
      · simp [hc]
      · simp [hc, hne]

theorem foldl_cacheStep_cache (layers : List V3Layer) (st : MigrateState)
    (bpName : String) (l : V3Layer) (hmem : l ∈ layers)
    (hnodup : (layers.map V3Layer.name).Nodup) :
    (layers.foldl (cacheStep bpName) st).cacheCnb bpName l.name =
      match l.sidecar with
      | some m => if m.cache then some (m, l.contents)
                  else st.cacheCnb bpName l.name
      | none => st.cacheCnb bpName l.name := by
  induction layers generalizing st with
  | nil => cases hmem
  | cons h0 t ih =>
    simp only [List.map_cons, List.nodup_cons] at hnodup
    obtain ⟨hnm, hnd⟩ := hnodup
    rcases List.mem_cons.mp hmem with heq | hmemt
    · subst heq
      rw [List.foldl_cons, foldl_cacheStep_not_mem t _ bpName l.name hnm]
      unfold cacheStep cacheLayer
      rcases l.sidecar with _ | m
      · rfl
      · rcases hc : m.cache
        · simp [hc]
        · simp [hc]
    · have hne : l.name ≠ h0.name := by
        intro hh
        exact hnm (hh ▸ (List.mem_map_of_mem V3Layer.name hmemt))
      rw [List.foldl_cons, ih _ hmemt hnd]
      have hstep : (cacheStep bpName st h0).cacheCnb bpName l.name =
          st.cacheCnb bpName l.name := by
        unfold cacheStep cacheLayer
        rcases h0.sidecar with _ | m
        · rfl
        · rcases hc : m.cache
          · simp [hc]
          · simp [hc, hne]
      rw [hstep]

/-- C6: cache selectivity of layer migration. For a layer of a non-config
buildpack layers directory (layer names distinct): if its sidecar has
`cache=true`, the durable cache entry at `(buildpack name, layer name)`
becomes the pair of its sidecar and its directory tree, overwriting any
prior entry; if its sidecar has `cache=false`, or it has no sidecar, the
durable cache at its key is left exactly as before; in all cases the full
buildpack layer directory is copied into the legacy deps layout under the
buildpack's name. -/
theorem moveV3Layer_cache_selectivity (st : MigrateState) (bp : BpLayersDir)
    (l : V3Layer) (hmem : l ∈ bp.layers)
    (hnodup : (bp.layers.map V3Layer.name).Nodup) :
    (∀ m, l.sidecar = some m → m.cache = true →
        (moveV3Layer st bp).cacheCnb bp.name l.name = some (m, l.contents)) ∧
      ((l.sidecar = none ∨ ∃ m, l.sidecar = some m ∧ m.cache = false) →
        (moveV3Layer st bp).cacheCnb bp.name l.name =
          st.cacheCnb bp.name l.name) ∧
      (moveV3Layer st bp).depsDir bp.name = some bp.layers := by
  have hfold := foldl_cacheStep_cache bp.layers st bp.name l hmem hnodup
  refine ⟨?_, ?_, ?_⟩
  · intro m hm hc
    show (bp.layers.foldl (cacheStep bp.name) st).cacheCnb bp.name l.name = _
    rw [hfold, hm]
    simp [hc]
  · intro hcase
    show (bp.layers.foldl (cacheStep bp.name) st).cacheCnb bp.name l.name = _
    rw [hfold]
    rcases hcase with hnone | ⟨m, hm, hc⟩
    · rw [hnone]
    · rw [hm]
      simp [hc]
  · show (if bp.name = bp.name then _ else _) = _
    rw [if_pos rfl]

/-- Witness for C6: migrating a buildpack directory with layers
`x (cache=true)` and `y (cache=false)` from an empty state caches `x`,
leaves no entry for `y`, and copies the whole directory into the legacy
deps layout. -/
theorem moveV3Layer_cache_selectivity_witness :
    (moveV3Layer ⟨fun _ _ => none, fun _ => none⟩
        ⟨"bp-a", [⟨"x", some ⟨true, true, true⟩, "cx"⟩,
          ⟨"y", some ⟨true, true, false⟩, "cy"⟩]⟩).cacheCnb "bp-a" "x" =
      some (⟨true, true, true⟩, "cx") ∧
      (moveV3Layer ⟨fun _ _ => none, fun _ => none⟩
          ⟨"bp-a", [⟨"x", some ⟨true, true, true⟩, "cx"⟩,
            ⟨"y", some ⟨true, true, false⟩, "cy"⟩]⟩).cacheCnb "bp-a" "y" =
        none ∧
      (moveV3Layer ⟨fun _ _ => none, fun _ => none⟩
          ⟨"bp-a", [⟨"x", some ⟨true, true, true⟩, "cx"⟩,
            ⟨"y", some ⟨true, true, false⟩, "cy"⟩]⟩).depsDir "bp-a" =
        some [⟨"x", some ⟨true, true, true⟩, "cx"⟩,
          ⟨"y", some ⟨true, true, false⟩, "cy"⟩] := by
  refine ⟨?_, ?_, ?_⟩
  · exact (moveV3Layer_cache_selectivity ⟨fun _ _ => none, fun _ => none⟩
      ⟨"bp-a", [⟨"x", some ⟨true, true, true⟩, "cx"⟩,
        ⟨"y", some ⟨true, true, false⟩, "cy"⟩]⟩
      ⟨"x", some ⟨true, true, true⟩, "cx"⟩ (by decide) (by decide)).1
      ⟨true, true, true⟩ rfl rfl
  · have h := (moveV3Layer_cache_selectivity ⟨fun _ _ => none, fun _ => none⟩
      ⟨"bp-a", [⟨"x", some ⟨true, true, true⟩, "cx"⟩,
        ⟨"y", some ⟨true, true, false⟩, "cy"⟩]⟩
      ⟨"y", some ⟨true, true, false⟩, "cy"⟩ (by decide) (by decide)).2.1
      (Or.inr ⟨⟨true, true, false⟩, rfl, rfl⟩)
    rw [h]
  · exact (moveV3Layer_cache_selectivity ⟨fun _ _ => none, fun _ => none⟩
      ⟨"bp-a", [⟨"x", some ⟨true, true, true⟩, "cx"⟩,
        ⟨"y", some ⟨true, true, false⟩, "cy"⟩]⟩
      ⟨"x", some ⟨true, true, true⟩, "cx"⟩ (by decide) (by decide)).2.2

/-- C7: restoring from an absent durable cache root is a no-op and returns
no error; restoring from a present root always succeeds, moves its
contents wholesale into the working layers directory, and leaves no
contents behind at the durable cache root. -/
theorem restoreV3Cache_noop_or_move (st : CacheDirState) :
    (st.cnbCache = none → RestoreV3Cache st = .ok st) ∧
      (∀ entries, st.cnbCache = some entries →
        RestoreV3Cache st = .ok ⟨some [], st.layersDir ++ entries⟩) := by
  constructor
  · intro h
    unfold RestoreV3Cache
    rw [h]
  · intro entries h
    unfold RestoreV3Cache
    rw [h]
    rfl

/-- Witness for C7: restore at a concrete absent root is the identity;
restore at a concrete present root moves both entries into the layers
directory and empties the root. -/
theorem restoreV3Cache_noop_or_move_witness :
    RestoreV3Cache ⟨none, [("a", "1")]⟩ = .ok ⟨none, [("a", "1")]⟩ ∧
      RestoreV3Cache ⟨some [("e1", "c1"), ("e2", "c2")], [("a", "1")]⟩ =
        .ok ⟨some [], [("a", "1"), ("e1", "c1"), ("e2", "c2")]⟩ :=
  ⟨(restoreV3Cache_noop_or_move ⟨none, [("a", "1")]⟩).1 rfl,
    (restoreV3Cache_noop_or_move
      ⟨some [("e1", "c1"), ("e2", "c2")], [("a", "1")]⟩).2
      [("e1", "c1"), ("e2", "c2")] rfl⟩

end shims

